import Mathlib

/-!
Shallow embedding of the seq-tools repository (barcode_id.py, seq_analysis.py).

Sequences are `List Char`.  Python string slicing (including negative-index
semantics) is modelled by `pySlice`; fallible dictionary lookups are modelled
with `Option`; real arithmetic of the metrics formulas is modelled exactly
over `ℚ`, with Python's `round(x, 3)` (round-half-to-even) as `round3`.
-/

namespace SeqTools

/-- The `nucleic_acid` argument: the source only ever passes "DNA" or "RNA". -/
inductive NucleicAcid where
  | DNA
  | RNA
deriving DecidableEq

open NucleicAcid

/-- The `bases` complement table of `barcode_id.reverse_comp` (lines 42-58):
entries for A T G C N a t g c n, space, tab, newline, comma; lowercase letters
map to uppercase complements except `n`; any other character is a `KeyError`
(`none`). -/
def bases (x : Char) (nucleic_acid : NucleicAcid) : Option Char :=
  if x = 'A' then some (match nucleic_acid with | DNA => 'T' | RNA => 'U')
  else if x = 'T' then some (match nucleic_acid with | DNA => 'A' | RNA => 'A')
  else if x = 'G' then some (match nucleic_acid with | DNA => 'C' | RNA => 'C')
  else if x = 'C' then some (match nucleic_acid with | DNA => 'G' | RNA => 'G')
  else if x = 'N' then some (match nucleic_acid with | DNA => 'N' | RNA => 'N')
  else if x = 'a' then some (match nucleic_acid with | DNA => 'T' | RNA => 'U')
  else if x = 't' then some (match nucleic_acid with | DNA => 'A' | RNA => 'A')
  else if x = 'g' then some (match nucleic_acid with | DNA => 'C' | RNA => 'C')
  else if x = 'c' then some (match nucleic_acid with | DNA => 'G' | RNA => 'G')
  else if x = 'n' then some (match nucleic_acid with | DNA => 'n' | RNA => 'n')
  else if x = ' ' then some ' '
  else if x = '\t' then some '\t'
  else if x = '\n' then some '\n'
  else if x = ',' then some ','
  else none

/-- A Python list comprehension `[f(x) for x in s]` over a fallible `f`:
the first failing element aborts the whole computation (`KeyError`). -/
def mapOption (f : Char → Option Char) : List Char → Option (List Char)
  | [] => some []
  | x :: t =>
    match f x, mapOption f t with
    | some y, some ys => some (y :: ys)
    | _, _ => none

/-- `barcode_id.reverse_comp(sequence, nucleic_acid)`: substitute every
character through `bases`, then reverse the whole string (`[::-1]`). -/
def reverse_comp (sequence : List Char) (nucleic_acid : NucleicAcid) :
    Option (List Char) :=
  (mapOption (fun x => bases x nucleic_acid) sequence).map List.reverse

/-- Start index of the first match of the literal pattern `pat` in the suffix
`s` of the scanned string, `i` being the offset of `s` in that string.
Models `[m.start(0) for m in re.finditer(pat, seq)][0]` for the literal
(metacharacter-free) patterns the source uses. -/
def firstMatchFrom (pat : List Char) : List Char → Nat → Option Nat
  | [], i => if pat.isPrefixOf ([] : List Char) then some i else none
  | c :: t, i => if pat.isPrefixOf (c :: t) then some i else firstMatchFrom pat t (i + 1)

/-- Start index of the first (lowest-index) match of `pat` in `s`. -/
def firstMatch (pat s : List Char) : Option Nat :=
  firstMatchFrom pat s 0

/-- Resolve one Python slice endpoint against a string of length `len`:
a negative index counts from the end of the string and clamps at 0,
a non-negative index clamps at `len`. -/
def pySliceIdx (len : Nat) (a : Int) : Nat :=
  if a < 0 then ((len : Int) + a).toNat else min a.toNat len

/-- Python's `s[a:b]` on a string, with full negative-index semantics. -/
def pySlice (s : List Char) (a b : Int) : List Char :=
  (s.take (pySliceIdx s.length b)).drop (pySliceIdx s.length a)

/-- `barcode_id.locate_id(seq, id_pattern, n_id)`: the slice
`seq[i - n_id : i]` before the first match start `i`, `""` if no match. -/
def locate_id (seq : List Char) (id_pattern : List Char) (n_id : Nat) : List Char :=
  match firstMatch id_pattern seq with
  | none => []
  | some i => pySlice seq ((i : Int) - (n_id : Int)) (i : Int)

/-- `barcode_id.locate_bc(seq, bc_pattern, n_bc)`: the slice
`seq[i + 3 : i + 3 + n_bc]` after the first match start `i`, `""` if no
match (the skip of 3 is hard-coded in the source). -/
def locate_bc (seq : List Char) (bc_pattern : List Char) (n_bc : Nat) : List Char :=
  match firstMatch bc_pattern seq with
  | none => []
  | some i => pySlice seq ((i : Int) + 3) ((i : Int) + 3 + (n_bc : Int))

/-- One output row of `barcode_id.compile_id`: columns `seq`, `id`, `barcode`. -/
structure ExtractionRow where
  seq : List Char
  id : List Char
  barcode : List Char
deriving DecidableEq

/-- The per-row work of `compile_id`: optionally reverse-complement the row
(DNA), then extract id and barcode from the (possibly complemented) sequence. -/
def compileRow (rev : Bool) (id_pattern : List Char) (n_id : Nat)
    (bc_pattern : List Char) (n_bc : Nat) (s0 : List Char) : Option ExtractionRow :=
  match (if rev then reverse_comp s0 DNA else some s0) with
  | none => none
  | some s => some ⟨s, locate_id s id_pattern n_id, locate_bc s bc_pattern n_bc⟩

/-- Row-wise application of a fallible per-row function; a failing row
(`KeyError` during reverse complement) aborts the whole batch. -/
def mapRows (f : List Char → Option ExtractionRow) :
    List (List Char) → Option (List ExtractionRow)
  | [] => some []
  | r :: t =>
    match f r, mapRows f t with
    | some y, some ys => some (y :: ys)
    | _, _ => none

/-- `barcode_id.compile_id(file, rev_comp, id_kwargs, bc_kwargs)` with the
batch of rows already read: one output row per input row, in order. -/
def compile_id (rows : List (List Char)) (rev : Bool) (id_pattern : List Char)
    (n_id : Nat) (bc_pattern : List Char) (n_bc : Nat) : Option (List ExtractionRow) :=
  mapRows (compileRow rev id_pattern n_id bc_pattern n_bc) rows

/-- The complement table of `seq_analysis.dna_sequence.rev_comp`
(lines 52-66): same entries as `bases` except that it has no `N`/`n` keys. -/
def sa_bases (x : Char) (nucleic_acid : NucleicAcid) : Option Char :=
  if x = 'A' then some (match nucleic_acid with | DNA => 'T' | RNA => 'U')
  else if x = 'T' then some (match nucleic_acid with | DNA => 'A' | RNA => 'A')
  else if x = 'G' then some (match nucleic_acid with | DNA => 'C' | RNA => 'C')
  else if x = 'C' then some (match nucleic_acid with | DNA => 'G' | RNA => 'G')
  else if x = 'a' then some (match nucleic_acid with | DNA => 'T' | RNA => 'U')
  else if x = 't' then some (match nucleic_acid with | DNA => 'A' | RNA => 'A')
  else if x = 'g' then some (match nucleic_acid with | DNA => 'C' | RNA => 'C')
  else if x = 'c' then some (match nucleic_acid with | DNA => 'G' | RNA => 'G')
  else if x = ' ' then some ' '
  else if x = '\t' then some '\t'
  else if x = '\n' then some '\n'
  else if x = ',' then some ','
  else none

/-- `seq_analysis.dna_sequence.rev_comp(nucleic_acid)`: substitution through
`sa_bases` followed by full reversal. -/
def sa_rev_comp (sequence : List Char) (nucleic_acid : NucleicAcid) :
    Option (List Char) :=
  (mapOption (fun x => sa_bases x nucleic_acid) sequence).map List.reverse

/-- `self.counts['A']` of `dna_sequence.__init__`: case-insensitive count. -/
def countA (s : List Char) : Nat := s.count 'A' + s.count 'a'

/-- `self.counts['T']` of `dna_sequence.__init__`. -/
def countT (s : List Char) : Nat := s.count 'T' + s.count 't'

/-- `self.counts['C']` of `dna_sequence.__init__`. -/
def countC (s : List Char) : Nat := s.count 'C' + s.count 'c'

/-- `self.counts['G']` of `dna_sequence.__init__`. -/
def countG (s : List Char) : Nat := s.count 'G' + s.count 'g'

/-- `self.seq_length = sum(self.counts.values())`: the recognized-base length. -/
def seq_length (s : List Char) : Nat := countA s + countT s + countC s + countG s

/-- Round a rational to the nearest integer, ties to the even integer
(Python 3 `round` semantics). -/
def roundHalfEven (q : ℚ) : ℤ :=
  let f := Rat.floor q
  let r := q - (f : ℚ)
  if r < 1 / 2 then f
  else if 1 / 2 < r then f + 1
  else if f % 2 = 0 then f else f + 1

/-- Python `round(q, 3)`, modelled exactly over `ℚ`. -/
def round3 (q : ℚ) : ℚ := (roundHalfEven (q * 1000) : ℚ) / 1000

/-- `dna_sequence.gc_content()`: `round(((G+C)/seq_length)*100, 3)`;
`ZeroDivisionError` (`none`) when the recognized length is 0. -/
def gc_content (s : List Char) : Option ℚ :=
  if seq_length s = 0 then none
  else some (round3 ((((countG s : ℚ) + (countC s : ℚ)) / (seq_length s : ℚ)) * 100))

/-- `dna_sequence.tm_calc()`: Wallace rule below 14 recognized bases, the
GC-fraction formula otherwise, both rounded to 3 decimals. -/
def tm_calc (s : List Char) : ℚ :=
  if seq_length s < 14 then
    round3 (((countA s : ℚ) + (countT s : ℚ)) * 2 + ((countG s : ℚ) + (countC s : ℚ)) * 4)
  else
    round3 (64.9 + 41 * ((countG s : ℚ) + (countC s : ℚ) - 16.4) /
      ((countA s : ℚ) + (countT s : ℚ) + (countG s : ℚ) + (countC s : ℚ)))

/-- The characters on which both complement tables are defined. -/
def commonAlphabet : List Char :=
  ['A', 'T', 'G', 'C', 'a', 't', 'g', 'c', ' ', '\t', '\n', ',']

/-- The eight base letters recognized by `dna_sequence`'s counts. -/
def baseAlphabet : List Char :=
  ['A', 'T', 'G', 'C', 'a', 't', 'g', 'c']

/-- The key set of the `bases` table of `barcode_id.reverse_comp`. -/
def bcDomain : List Char :=
  ['A', 'T', 'G', 'C', 'N', 'a', 't', 'g', 'c', 'n', ' ', '\t', '\n', ',']

/-! ### Helper lemmas -/

theorem firstMatchFrom_le (p : List Char) :
    ∀ (t : List Char) (a j : Nat), firstMatchFrom p t a = some j → j ≤ a + t.length := by
  intro t
  induction t with
  | nil =>
    intro a j hj
    unfold firstMatchFrom at hj
    split at hj
    · simp only [Option.some.injEq] at hj
      omega
    · simp at hj
  | cons c u ih =>
    intro a j hj
    unfold firstMatchFrom at hj
    split at hj
    · simp only [Option.some.injEq] at hj
      simp only [List.length_cons]
      omega
    · have := ih (a + 1) j hj
      simp only [List.length_cons]
      omega

theorem firstMatch_le {p s : List Char} {i : Nat} (h : firstMatch p s = some i) :
    i ≤ s.length := by
  have := firstMatchFrom_le p s 0 i h
  omega

theorem take_min_eq (s : List Char) (b : Nat) :
    s.take (min b s.length) = s.take b := by
  rcases Nat.le_total b s.length with hle | hle
  · rw [Nat.min_eq_left hle]
  · rw [Nat.min_eq_right hle, List.take_length, List.take_of_length_le hle]

/-! ### C1: locate_id relative to the first match -/

/-- C1 counterexample: with sequence `"GGAAACAAAC"`, pattern `"AAACAAAC"`
(first match at index 2) and `n_id = 6 > 2`, `locate_id` returns `""`,
not the 2 preceding characters `"GG"`: the negative slice start wraps
instead of clamping to the start of the string. -/
theorem locate_id_wrap_cex :
    firstMatch "AAACAAAC".toList "GGAAACAAAC".toList = some 2 ∧
    locate_id "GGAAACAAAC".toList "AAACAAAC".toList 6 = [] ∧
    "GGAAACAAAC".toList.take 2 = "GG".toList ∧
    locate_id "GGAAACAAAC".toList "AAACAAAC".toList 6 ≠ "GG".toList := by
  decide

/-- C1 (amended): if `p` first matches `s` at index `i`, then
`locate_id s p n` is the Python slice `s[i-n : i]`: the `n` characters
immediately preceding `i` when `n ≤ i`; when `n > i` the negative start
index wraps to `s.length + i - n`, so the result is empty whenever
`i < n ≤ s.length`, and all `i` preceding characters are returned only
when `n ≥ s.length + i`. -/
theorem locate_id_first_match_window (s p : List Char) (n i : Nat)
    (h : firstMatch p s = some i) :
    locate_id s p n = (s.take i).drop (if n ≤ i then i - n else s.length + i - n) ∧
    (n ≤ i → locate_id s p n = (s.take i).drop (i - n)) ∧
    (s.length + i ≤ n → locate_id s p n = s.take i) ∧
    (i < n → n ≤ s.length → locate_id s p n = []) := by
  have hi : i ≤ s.length := firstMatch_le h
  have hmain : locate_id s p n =
      (s.take i).drop (if n ≤ i then i - n else s.length + i - n) := by
    unfold locate_id
    rw [h]
    show pySlice s ((i : Int) - (n : Int)) (i : Int) = _
    unfold pySlice pySliceIdx
    have hb : (if (i : Int) < 0 then (((s.length : Int)) + (i : Int)).toNat
        else min ((i : Int)).toNat s.length) = i := by
      split <;> omega
    have ha : (if (i : Int) - (n : Int) < 0 then
          (((s.length : Int)) + ((i : Int) - (n : Int))).toNat
        else min (((i : Int) - (n : Int))).toNat s.length) =
        (if n ≤ i then i - n else s.length + i - n) := by
      split <;> split <;> omega
    rw [hb, ha]
  refine ⟨hmain, fun hn => ?_, fun hn => ?_, fun hn1 hn2 => ?_⟩
  · rw [hmain, if_pos hn]
  · rw [hmain]
    split
    · have : i - n = 0 := by omega
      rw [this, List.drop_zero]
    · have : s.length + i - n = 0 := by omega
      rw [this, List.drop_zero]
  · rw [hmain, if_neg (by omega)]
    apply List.drop_eq_nil_of_le
    simp only [List.length_take]
    omega

/-- Witness for C1 at the concrete wrap input: pattern matches at `i = 2`,
`n = 6`, and the result is `("GGAAACAAAC".take 2).drop (10 + 2 - 6) = ""`. -/
theorem locate_id_first_match_window_wit :
    firstMatch "AAACAAAC".toList "GGAAACAAAC".toList = some 2 ∧
    locate_id "GGAAACAAAC".toList "AAACAAAC".toList 6 =
      ("GGAAACAAAC".toList.take 2).drop
        (if 6 ≤ 2 then 2 - 6 else "GGAAACAAAC".toList.length + 2 - 6) :=
  ⟨by decide,
    (locate_id_first_match_window "GGAAACAAAC".toList "AAACAAAC".toList 6 2 (by decide)).1⟩

/-! ### C2: locate_bc relative to the first match -/

/-- C2: if `p` first matches `s` at index `i`, then `locate_bc s p k` is the
substring starting 3 characters after `i`; it has exactly `k` characters when
at least `3 + k` characters follow index `i` (that is, `i + 3 + k ≤ s.length`),
and otherwise it is the shorter tail of the string (possibly empty). -/
theorem locate_bc_first_match_window (s p : List Char) (k i : Nat)
    (h : firstMatch p s = some i) :
    locate_bc s p k = (s.drop (i + 3)).take k ∧
    (i + 3 + k ≤ s.length → (locate_bc s p k).length = k) ∧
    (s.length < i + 3 + k → locate_bc s p k = s.drop (i + 3)) := by
  have hmain : locate_bc s p k = (s.drop (i + 3)).take k := by
    unfold locate_bc
    rw [h]
    show pySlice s ((i : Int) + 3) ((i : Int) + 3 + (k : Int)) = _
    unfold pySlice pySliceIdx
    rw [if_neg (by omega), if_neg (by omega)]
    have e1 : ((i : Int) + 3 + (k : Int)).toNat = i + 3 + k := by omega
    have e2 : ((i : Int) + 3).toNat = i + 3 := by omega
    rw [e1, e2, List.take_drop (i + 3) k s, take_min_eq]
    rcases Nat.le_total (i + 3) s.length with hle | hle
    · rw [Nat.min_eq_left hle]
    · rw [Nat.min_eq_right hle]
      rw [List.drop_eq_nil_of_le (by simp only [List.length_take]; omega),
        List.drop_eq_nil_of_le (by simp only [List.length_take]; omega)]
  refine ⟨hmain, fun hk => ?_, fun hk => ?_⟩
  · rw [hmain]
    simp only [List.length_take, List.length_drop]
    omega
  · rw [hmain]
    exact List.take_of_length_le (by simp only [List.length_drop]; omega)

/-- Witness for C2 at the spec's scenario 2 shape: pattern `"GGGGGT"` matches
`"XXXGGGGGTAAACCCGG"` at index 3; with `n_bc = 5` the result is the 5
characters starting at index 6, `"GGTAA"`. -/
theorem locate_bc_first_match_window_wit :
    firstMatch "GGGGGT".toList "XXXGGGGGTAAACCCGG".toList = some 3 ∧
    locate_bc "XXXGGGGGTAAACCCGG".toList "GGGGGT".toList 5 =
      ("XXXGGGGGTAAACCCGG".toList.drop (3 + 3)).take 5 ∧
    ("XXXGGGGGTAAACCCGG".toList.drop (3 + 3)).take 5 = "GGTAA".toList :=
  ⟨by decide,
    (locate_bc_first_match_window "XXXGGGGGTAAACCCGG".toList "GGGGGT".toList 5 3
      (by decide)).1,
    by decide⟩

/-! ### C3: no match yields the empty string -/

/-- C3: when `p` has no match in `s`, both `locate_id` and `locate_bc` return
the empty string (they do not fail): the empty string is the only
"not found" signal. -/
theorem locate_no_match_empty (s p : List Char) (n k : Nat)
    (h : firstMatch p s = none) :
    locate_id s p n = [] ∧ locate_bc s p k = [] := by
  constructor
  · unfold locate_id
    rw [h]
  · unfold locate_bc
    rw [h]

/-- Witness for C3: `"A"` never matches in `"CCT"`, and both locators return
the empty string there. -/
theorem locate_no_match_empty_wit :
    firstMatch "A".toList "CCT".toList = none ∧
    locate_id "CCT".toList "A".toList 6 = [] ∧
    locate_bc "CCT".toList "A".toList 30 = [] :=
  ⟨by decide,
    (locate_no_match_empty "CCT".toList "A".toList 6 30 (by decide)).1,
    (locate_no_match_empty "CCT".toList "A".toList 6 30 (by decide)).2⟩

/-! ### Complement helper lemmas -/

theorem bases_mem_domain {x y : Char} {na : NucleicAcid} (h : bases x na = some y) :
    x ∈ bcDomain := by
  by_contra hx
  simp only [bcDomain, List.mem_cons, List.not_mem_nil, or_false, not_or] at hx
  obtain ⟨h1, h2, h3, h4, h5, h6, h7, h8, h9, h10, h11, h12, h13, h14⟩ := hx
  unfold bases at h
  rw [if_neg h1, if_neg h2, if_neg h3, if_neg h4, if_neg h5, if_neg h6, if_neg h7,
    if_neg h8, if_neg h9, if_neg h10, if_neg h11, if_neg h12, if_neg h13, if_neg h14] at h
  exact Option.noConfusion h

theorem bases_dna_double {x y : Char} (h : bases x DNA = some y) :
    ∃ z, bases y DNA = some z ∧ z.toUpper = x.toUpper := by
  have hx := bases_mem_domain h
  simp only [bcDomain, List.mem_cons, List.not_mem_nil, or_false] at hx
  rcases hx with h' | h' | h' | h' | h' | h' | h' | h' | h' | h' | h' | h' | h' | h' <;>
    subst h' <;> injection h with h <;> subst h <;> exact ⟨_, rfl, by decide⟩

theorem mapOption_dna_double :
    ∀ (s m : List Char), mapOption (fun x => bases x DNA) s = some m →
      ∃ m2, mapOption (fun x => bases x DNA) m = some m2 ∧
        m2.map Char.toUpper = s.map Char.toUpper := by
  intro s
  induction s with
  | nil =>
    intro m hm
    unfold mapOption at hm
    injection hm with hm
    subst hm
    exact ⟨[], rfl, rfl⟩
  | cons c t ih =>
    intro m hm
    unfold mapOption at hm
    cases hb : bases c DNA with
    | none => rw [hb] at hm; exact Option.noConfusion hm
    | some y =>
      cases hrest : mapOption (fun x => bases x DNA) t with
      | none => rw [hb, hrest] at hm; exact Option.noConfusion hm
      | some ys =>
        rw [hb, hrest] at hm
        injection hm with hm
        subst hm
        obtain ⟨m2, h1, h2⟩ := ih ys hrest
        obtain ⟨z, hz1, hz2⟩ := bases_dna_double hb
        refine ⟨z :: m2, ?_, ?_⟩
        · unfold mapOption
          rw [hz1, h1]
        · simp [hz2, h2]

theorem mapOption_append (f : Char → Option Char) (a b : List Char) :
    mapOption f (a ++ b) =
      (mapOption f a).bind (fun xs => (mapOption f b).map (fun ys => xs ++ ys)) := by
  induction a with
  | nil =>
    simp only [List.nil_append]
    cases hb : mapOption f b <;> simp [mapOption, hb]
  | cons c t ih =>
    show (match f c, mapOption f (t ++ b) with
      | some y, some ys => some (y :: ys)
      | _, _ => none) = _
    rw [ih]
    simp only [mapOption]
    cases hc : f c <;> cases ht : mapOption f t <;> cases hb : mapOption f b <;>
      simp [hc, ht, hb]

theorem mapOption_reverse (f : Char → Option Char) (s : List Char) :
    mapOption f s.reverse = (mapOption f s).map List.reverse := by
  induction s with
  | nil => simp [mapOption]
  | cons c t ih =>
    rw [List.reverse_cons, mapOption_append, ih]
    simp only [mapOption]
    cases hc : f c <;> cases ht : mapOption f t <;> simp [hc, ht]

/-! ### C4: DNA round trip restores base letters, RNA does not -/

/-- C4: whenever `reverse_comp s DNA` succeeds (all characters have table
entries), applying `reverse_comp _ DNA` again succeeds and restores `s`'s
base letters (equality up to letter case); the RNA round trip is not such an
identity: `T` complements to `A`, which complements back to `U`, merging
`T` and `U`. -/
theorem reverse_comp_dna_roundtrip :
    (∀ (s t : List Char), reverse_comp s DNA = some t →
      ∃ u, reverse_comp t DNA = some u ∧ u.map Char.toUpper = s.map Char.toUpper) ∧
    (reverse_comp ['T'] RNA = some ['A'] ∧
     reverse_comp ['A'] RNA = some ['U'] ∧
     ['U'].map Char.toUpper ≠ ['T'].map Char.toUpper) := by
  constructor
  · intro s t h
    unfold reverse_comp at h
    cases hm : mapOption (fun x => bases x DNA) s with
    | none => rw [hm] at h; exact Option.noConfusion h
    | some m =>
      rw [hm] at h
      injection h with h
      subst h
      obtain ⟨m2, h1, h2⟩ := mapOption_dna_double s m hm
      refine ⟨m2, ?_, h2⟩
      unfold reverse_comp
      rw [mapOption_reverse, h1]
      simp
  · exact ⟨by decide, by decide, by decide⟩

/-- Witness for C4: the DNA round trip applied to `"ATGCatgcNn"` (whose
reverse complement is `"nNGCATGCAT"`) restores the base letters up to case. -/
theorem reverse_comp_dna_roundtrip_wit :
    ∃ u, reverse_comp "nNGCATGCAT".toList DNA = some u ∧
      u.map Char.toUpper = "ATGCatgcNn".toList.map Char.toUpper :=
  reverse_comp_dna_roundtrip.1 "ATGCatgcNn".toList "nNGCATGCAT".toList (by decide)

/-! ### C5: reverse_comp is substitution followed by full reversal -/

/-- C5: `reverse_comp s na` is the full reversal of the character-by-character
substitution of `s` through the complement table, and the table's exact case
mapping holds: lowercase `a` yields uppercase `T` (DNA) / `U` (RNA), lowercase
`n` stays lowercase `n`, and space, tab, newline and comma pass through
unchanged. -/
theorem reverse_comp_subst_reverse :
    (∀ (s m : List Char) (na : NucleicAcid),
      mapOption (fun x => bases x na) s = some m →
      reverse_comp s na = some m.reverse) ∧
    bases 'a' DNA = some 'T' ∧ bases 'a' RNA = some 'U' ∧
    bases 'n' DNA = some 'n' ∧ bases 'n' RNA = some 'n' ∧
    (∀ na, bases ' ' na = some ' ' ∧ bases '\t' na = some '\t' ∧
      bases '\n' na = some '\n' ∧ bases ',' na = some ',') := by
  refine ⟨?_, by decide, by decide, by decide, by decide, ?_⟩
  · intro s m na hm
    unfold reverse_comp
    rw [hm]
    rfl
  · intro na
    cases na <;> exact ⟨by decide, by decide, by decide, by decide⟩

/-- Witness for C5: substituting `"ATGCa"` through the DNA table gives
`"TACGT"`, and `reverse_comp` returns its reversal. -/
theorem reverse_comp_subst_reverse_wit :
    reverse_comp "ATGCa".toList DNA = some ("TACGT".toList.reverse) :=
  reverse_comp_subst_reverse.1 "ATGCa".toList "TACGT".toList NucleicAcid.DNA (by decide)

/-! ### Rounding helper lemmas -/

theorem ratFloor_eq (q : ℚ) : Rat.floor q = ⌊q⌋ :=
  (Rat.floor_def' q).trans Rat.floor_def.symm

theorem roundHalfEven_intCast (n : ℤ) : roundHalfEven ((n : ℚ)) = n := by
  unfold roundHalfEven
  rw [ratFloor_eq, Int.floor_intCast]
  norm_num

theorem round3_intCast (q : ℚ) (n : ℤ) (h : q * 1000 = (n : ℚ)) :
    round3 q = (n : ℚ) / 1000 := by
  unfold round3
  rw [h, roundHalfEven_intCast]

/-! ### C7: melting temperature -/

/-- C7: `tm_calc` returns `round3 (2*(A+T) + 4*(G+C))` when the recognized
length `A+T+G+C` is below 14 and `round3 (64.9 + 41*(G+C-16.4)/(A+T+G+C))`
otherwise; in particular on ten `'A'`s it returns `20`. -/
theorem tm_calc_piecewise :
    (∀ s : List Char,
      tm_calc s =
        if seq_length s < 14 then
          round3 (2 * ((countA s : ℚ) + (countT s : ℚ)) +
            4 * ((countG s : ℚ) + (countC s : ℚ)))
        else
          round3 (64.9 + 41 * (((countG s : ℚ) + (countC s : ℚ)) - 16.4) /
            ((countA s : ℚ) + (countT s : ℚ) + (countG s : ℚ) + (countC s : ℚ)))) ∧
    tm_calc (List.replicate 10 'A') = 20 := by
  constructor
  · intro s
    unfold tm_calc
    split
    · congr 1
      ring
    · rfl
  · have hA : countA (List.replicate 10 'A') = 10 := by decide
    have hT : countT (List.replicate 10 'A') = 0 := by decide
    have hG : countG (List.replicate 10 'A') = 0 := by decide
    have hC : countC (List.replicate 10 'A') = 0 := by decide
    have hL : seq_length (List.replicate 10 'A') = 10 := by decide
    unfold tm_calc
    rw [hL, if_pos (by norm_num), hA, hT, hG, hC,
      round3_intCast _ 20000 (by norm_num)]
    norm_num

/-! ### C8: GC content and the zero-length failure -/

/-- C8: when the recognized length is positive, `gc_content` returns
`round3 (100 * (G+C) / (A+T+G+C))`; when the recognized length is 0 it fails
with a division-by-zero error (`none`) rather than returning a value. -/
theorem gc_content_spec (s : List Char) :
    (seq_length s ≠ 0 →
      gc_content s = some (round3 (100 * ((countG s : ℚ) + (countC s : ℚ)) /
        (seq_length s : ℚ)))) ∧
    (seq_length s = 0 → gc_content s = none) := by
  constructor
  · intro h
    unfold gc_content
    rw [if_neg h]
    congr 2
    ring
  · intro h
    unfold gc_content
    rw [if_pos h]

/-- Witness for C8: `"ATGC"` has recognized length 4 and GC content
`round3 (100 * 2 / 4) = 50`; `"XYZ"` has recognized length 0 and
`gc_content` fails there. -/
theorem gc_content_spec_wit :
    gc_content "ATGC".toList =
      some (round3 (100 * ((countG "ATGC".toList : ℚ) + (countC "ATGC".toList : ℚ)) /
        (seq_length "ATGC".toList : ℚ))) ∧
    gc_content "XYZ".toList = none :=
  ⟨(gc_content_spec "ATGC".toList).1 (by decide),
   (gc_content_spec "XYZ".toList).2 (by decide)⟩

/-! ### C9: the base counts sum to the sequence length -/

/-- C9: for a sequence made only of the eight base letters, the sum of the
four case-insensitive base counts computed at construction equals both the
actual string length and the declared `seq_length` (which every later metric
reads unchanged: the value object is immutable). -/
theorem counts_sum_eq_length (s : List Char)
    (h : ∀ c ∈ s, c ∈ baseAlphabet) :
    countA s + countT s + countG s + countC s = s.length ∧
    seq_length s = s.length := by
  have key : ∀ t : List Char, (∀ c ∈ t, c ∈ baseAlphabet) → seq_length t = t.length := by
    intro t
    induction t with
    | nil => intro _; rfl
    | cons c u ih =>
      intro hc
      have hcu : ∀ x ∈ u, x ∈ baseAlphabet := fun x hx => hc x (List.mem_cons_of_mem c hx)
      have hmem : c ∈ baseAlphabet := hc c (List.mem_cons_self c u)
      have hu := ih hcu
      simp only [baseAlphabet, List.mem_cons, List.not_mem_nil, or_false] at hmem
      unfold seq_length countA countT countC countG at hu ⊢
      rcases hmem with h' | h' | h' | h' | h' | h' | h' | h' <;> subst h' <;>
        simp [List.count_cons] <;> omega
  have h2 := key s h
  constructor
  · unfold seq_length at h2
    omega
  · exact h2

/-- Witness for C9 on the eight-letter sequence `"ATGCatgc"`. -/
theorem counts_sum_eq_length_wit :
    countA "ATGCatgc".toList + countT "ATGCatgc".toList + countG "ATGCatgc".toList +
      countC "ATGCatgc".toList = "ATGCatgc".toList.length ∧
    seq_length "ATGCatgc".toList = "ATGCatgc".toList.length :=
  counts_sum_eq_length "ATGCatgc".toList (by decide)

/-! ### C6: compile_id keeps one output row per input row, in order -/

theorem compileRow_fields {rev : Bool} {p : List Char} {n : Nat} {q : List Char}
    {m : Nat} {x : List Char} {r : ExtractionRow}
    (h : compileRow rev p n q m x = some r) :
    r.id = locate_id r.seq p n ∧ r.barcode = locate_bc r.seq q m := by
  unfold compileRow at h
  cases hx : (if rev then reverse_comp x NucleicAcid.DNA else some x) with
  | none => rw [hx] at h; exact Option.noConfusion h
  | some s =>
    rw [hx] at h
    injection h with h
    subst h
    exact ⟨rfl, rfl⟩

/-- C6: whenever `compile_id` produces output, it has exactly one row
`{seq, id, barcode}` per input row, in the input order: the `k`-th output row
is the result of processing the `k`-th input row, and its `id` and `barcode`
fields are the locator results on its (possibly reverse-complemented) `seq`;
no row is dropped when an extracted field is empty. -/
theorem compile_id_preserves_rows (rows : List (List Char)) (rev : Bool)
    (id_pattern : List Char) (n_id : Nat) (bc_pattern : List Char) (n_bc : Nat)
    (out : List ExtractionRow)
    (h : compile_id rows rev id_pattern n_id bc_pattern n_bc = some out) :
    out.length = rows.length ∧
    ∀ k, k < rows.length →
      compileRow rev id_pattern n_id bc_pattern n_bc (rows.getD k []) =
        some (out.getD k ⟨[], [], []⟩) ∧
      (out.getD k ⟨[], [], []⟩).id =
        locate_id (out.getD k ⟨[], [], []⟩).seq id_pattern n_id ∧
      (out.getD k ⟨[], [], []⟩).barcode =
        locate_bc (out.getD k ⟨[], [], []⟩).seq bc_pattern n_bc := by
  have main : ∀ (rs : List (List Char)) (o : List ExtractionRow),
      mapRows (compileRow rev id_pattern n_id bc_pattern n_bc) rs = some o →
      o.length = rs.length ∧
      ∀ k, k < rs.length →
        compileRow rev id_pattern n_id bc_pattern n_bc (rs.getD k []) =
          some (o.getD k ⟨[], [], []⟩) := by
    intro rs
    induction rs with
    | nil =>
      intro o ho
      unfold mapRows at ho
      injection ho with ho
      subst ho
      exact ⟨rfl, fun k hk => absurd hk (Nat.not_lt_zero k)⟩
    | cons r t ih =>
      intro o ho
      unfold mapRows at ho
      cases hr : compileRow rev id_pattern n_id bc_pattern n_bc r with
      | none => rw [hr] at ho; exact Option.noConfusion ho
      | some y =>
        cases ht : mapRows (compileRow rev id_pattern n_id bc_pattern n_bc) t with
        | none => rw [hr, ht] at ho; exact Option.noConfusion ho
        | some ys =>
          rw [hr, ht] at ho
          injection ho with ho
          subst ho
          obtain ⟨hlen, hidx⟩ := ih ys ht
          refine ⟨by simp [hlen], ?_⟩
          intro k hk
          cases k with
          | zero => simpa using hr
          | succ k2 =>
            simp only [List.getD_cons_succ]
            exact hidx k2 (by simpa using hk)
  obtain ⟨hlen, hidx⟩ := main rows out h
  refine ⟨hlen, fun k hk => ?_⟩
  obtain ⟨hid, hbc⟩ := compileRow_fields (hidx k hk)
  exact ⟨hidx k hk, hid, hbc⟩

/-- Witness for C6 on a two-row batch in which the first row matches the id
pattern and the second does not: two output rows, in order. -/
theorem compile_id_preserves_rows_wit :
    ([⟨['A'], [], []⟩, ⟨['C'], [], []⟩] : List ExtractionRow).length =
      [['A'], ['C']].length ∧
    compileRow false ['A'] 1 ['C'] 2 ([['A'], ['C']].getD 0 []) =
      some (([⟨['A'], [], []⟩, ⟨['C'], [], []⟩] : List ExtractionRow).getD 0 ⟨[], [], []⟩) :=
  ⟨(compile_id_preserves_rows [['A'], ['C']] false ['A'] 1 ['C'] 2
      [⟨['A'], [], []⟩, ⟨['C'], [], []⟩] (by decide)).1,
   ((compile_id_preserves_rows [['A'], ['C']] false ['A'] 1 ['C'] 2
      [⟨['A'], [], []⟩, ⟨['C'], [], []⟩] (by decide)).2 0 (by decide)).1⟩

/-! ### C10: the two complement implementations agree on the common alphabet -/

theorem bases_eq_sa_bases (c : Char) (hc : c ∈ commonAlphabet) (na : NucleicAcid) :
    bases c na = sa_bases c na := by
  simp only [commonAlphabet, List.mem_cons, List.not_mem_nil, or_false] at hc
  rcases hc with h | h | h | h | h | h | h | h | h | h | h | h <;> subst h <;>
    cases na <;> decide

theorem mapOption_congr (f g : Char → Option Char) (s : List Char)
    (h : ∀ c ∈ s, f c = g c) : mapOption f s = mapOption g s := by
  induction s with
  | nil => rfl
  | cons c t ih =>
    unfold mapOption
    rw [h c (List.mem_cons_self c t), ih (fun x hx => h x (List.mem_cons_of_mem c hx))]

/-- C10: on sequences over the common alphabet (the eight base letters plus
space, tab, newline and comma) the two complement implementations agree for
both DNA and RNA; outside it they diverge: `barcode_id`'s table maps `'N'`
and `'n'` while `seq_analysis`'s table fails on them. -/
theorem complement_impls_agree :
    (∀ (s : List Char) (na : NucleicAcid), (∀ c ∈ s, c ∈ commonAlphabet) →
      reverse_comp s na = sa_rev_comp s na) ∧
    reverse_comp ['N'] NucleicAcid.DNA = some ['N'] ∧
    sa_rev_comp ['N'] NucleicAcid.DNA = none ∧
    reverse_comp ['n'] NucleicAcid.DNA = some ['n'] ∧
    sa_rev_comp ['n'] NucleicAcid.DNA = none := by
  refine ⟨?_, by decide, by decide, by decide, by decide⟩
  intro s na h
  unfold reverse_comp sa_rev_comp
  rw [mapOption_congr _ _ s (fun c hc => bases_eq_sa_bases c (h c hc) na)]

/-- Witness for C10 on a sequence exercising the whole common alphabet. -/
theorem complement_impls_agree_wit :
    reverse_comp "ATGCatgc \t\n,".toList NucleicAcid.DNA =
      sa_rev_comp "ATGCatgc \t\n,".toList NucleicAcid.DNA :=
  complement_impls_agree.1 "ATGCatgc \t\n,".toList NucleicAcid.DNA (by decide)

end SeqTools
